import Mathlib

/-!
Verification of the Ollama streaming client,
file src/ai/providers/ollama/client.ts.

Shallow embedding of the streaming NDJSON decode loop of
OllamaClient.generateCompletionStream, and of OllamaClient.listModels and
OllamaClient.testConnection.

Modelling conventions:
* JavaScript strings are modelled as lists of code points, type List Nat.
  This also accommodates lone surrogates produced by unicode escapes inside
  JSON string literals.
* Byte streams are List Nat; the sequence of values produced by successive
  reader.read() calls is a List (List Nat), and end-of-data is the end of
  that list.
* The TextDecoder created with new TextDecoder() and always invoked as
  decoder.decode(value, with the stream option set to true) is modelled by
  the WHATWG UTF-8 decoder state machine, processed one byte at a time, in
  replacement mode, since the fatal flag defaults to false.  BOM stripping
  is not modelled: a stripped byte-order mark could only ever change the
  very first code point of the decoded stream, where a leading U+FEFF is
  removed by the trim() call of the line loop before JSON.parse runs, so it
  is unobservable in every emission of this pipeline.
* JSON.parse is modelled by a fuel-indexed recursive-descent parser of the
  JSON.parse grammar.  Number tokens are kept as their raw code points: the
  client only ever observes a parsed number through JavaScript truthiness,
  which needs only whether its value is zero.
* The JavaScript value undefined is modelled by none, of type Option Json.
-/

/-- Code points of a Lean string literal. -/
def codes (s : String) : List Nat :=
  s.toList.map (fun c => c.toNat)

/-!
Section 1: the WHATWG UTF-8 decoder state machine, modelling
TextDecoder.decode with streaming, as used at client.ts lines 267 and 275.
-/

/-- Decoder state of the WHATWG UTF-8 decoder: the code point being
assembled, how many continuation bytes have been seen and how many are
needed in total, and the admissible range for the next continuation byte. -/
structure Utf8State where
  codePoint : Nat
  bytesSeen : Nat
  bytesNeeded : Nat
  lowerBoundary : Nat
  upperBoundary : Nat
deriving DecidableEq, Repr

/-- Initial decoder state; also the state between complete characters. -/
def Utf8State.init : Utf8State :=
  ⟨0, 0, 0, 0x80, 0xBF⟩

/-- Handle one byte when no multi-byte sequence is in progress: ASCII is
emitted directly, a valid lead byte opens a sequence, recording the special
continuation boundaries for lead bytes E0, ED, F0 and F4, and anything
else emits U+FFFD, the decoder being in replacement mode. -/
def utf8HandleLead (b : Nat) : Utf8State × List Nat :=
  if b ≤ 0x7F then
    (Utf8State.init, [b])
  else if 0xC2 ≤ b ∧ b ≤ 0xDF then
    (⟨b - 0xC0, 0, 1, 0x80, 0xBF⟩, [])
  else if 0xE0 ≤ b ∧ b ≤ 0xEF then
    (⟨b - 0xE0, 0, 2,
      if b = 0xE0 then 0xA0 else 0x80,
      if b = 0xED then 0x9F else 0xBF⟩, [])
  else if 0xF0 ≤ b ∧ b ≤ 0xF4 then
    (⟨b - 0xF0, 0, 3,
      if b = 0xF0 then 0x90 else 0x80,
      if b = 0xF4 then 0x8F else 0xBF⟩, [])
  else
    (Utf8State.init, [0xFFFD])

/-- One step of the WHATWG UTF-8 decoder: the next state together with the
code points emitted while consuming this byte.  When a continuation byte is
outside the admissible boundaries, the machine emits U+FFFD and reprocesses
the byte as a fresh lead, per the restore-byte-to-stream step of the
standard. -/
def utf8ProcessByte (st : Utf8State) (b : Nat) : Utf8State × List Nat :=
  if st.bytesNeeded = 0 then
    utf8HandleLead b
  else if st.lowerBoundary ≤ b ∧ b ≤ st.upperBoundary then
    if st.bytesSeen + 1 = st.bytesNeeded then
      (Utf8State.init, [st.codePoint * 64 + (b - 0x80)])
    else
      (⟨st.codePoint * 64 + (b - 0x80), st.bytesSeen + 1, st.bytesNeeded, 0x80, 0xBF⟩, [])
  else
    ((utf8HandleLead b).1, 0xFFFD :: (utf8HandleLead b).2)

/-- Feed a block of bytes to the decoder, collecting emitted code points:
one decoder.decode call with the stream option, client.ts line 275. -/
def utf8Feed (st : Utf8State) : List Nat → Utf8State × List Nat
  | [] => (st, [])
  | b :: bs =>
    ((utf8Feed (utf8ProcessByte st b).1 bs).1,
      (utf8ProcessByte st b).2 ++ (utf8Feed (utf8ProcessByte st b).1 bs).2)

/-- UTF-8 encoding of one code point (total; meaningful on scalar values). -/
def utf8Encode (c : Nat) : List Nat :=
  if c ≤ 0x7F then [c]
  else if c ≤ 0x7FF then [0xC0 + c / 64, 0x80 + c % 64]
  else if c ≤ 0xFFFF then
    [0xE0 + c / 4096, 0x80 + c / 64 % 64, 0x80 + c % 64]
  else
    [0xF0 + c / 262144, 0x80 + c / 4096 % 64, 0x80 + c / 64 % 64, 0x80 + c % 64]

/-- UTF-8 encoding of a sequence of code points. -/
def utf8EncodeAll (cs : List Nat) : List Nat :=
  (cs.map utf8Encode).flatten

/-- A Unicode scalar value: in range and not a surrogate. -/
def ValidScalar (c : Nat) : Prop :=
  c < 0x110000 ∧ ¬(0xD800 ≤ c ∧ c ≤ 0xDFFF)

instance (c : Nat) : Decidable (ValidScalar c) := by
  unfold ValidScalar; infer_instance

/-!
Section 2: JSON values and the JSON.parse grammar, modelling the
JSON.parse call at client.ts line 286.
-/

/-- A JavaScript value produced by JSON.parse.  Strings are lists of code
points; numbers keep their raw token text. -/
inductive Json where
  | null
  | bool (b : Bool)
  | num (raw : List Nat)
  | str (s : List Nat)
  | arr (elems : List Json)
  | obj (fields : List (List Nat × Json))

/-- JSON insignificant whitespace: space, tab, line feed, carriage return. -/
def jsonWS (c : Nat) : Bool :=
  decide (c = 32 ∨ c = 9 ∨ c = 10 ∨ c = 13)

/-- Skip insignificant whitespace. -/
def skipWS (s : List Nat) : List Nat :=
  s.dropWhile jsonWS

/-- ASCII decimal digit. -/
def isDigit (c : Nat) : Bool :=
  decide (48 ≤ c ∧ c ≤ 57)

/-- Value of an ASCII hexadecimal digit. -/
def hexVal (c : Nat) : Option Nat :=
  if 48 ≤ c ∧ c ≤ 57 then some (c - 48)
  else if 65 ≤ c ∧ c ≤ 70 then some (c - 55)
  else if 97 ≤ c ∧ c ≤ 102 then some (c - 87)
  else none

/-- Prepend a code point to the string component of a partial parse. -/
def consFst (c : Nat) : Option (List Nat × List Nat) → Option (List Nat × List Nat)
  | none => none
  | some (s, r) => some (c :: s, r)

/-- Parse the body of a JSON string after the opening quote, returning the
decoded content and the input remaining after the closing quote.  Escapes
follow JSON.parse: the two-character escapes, and unicode escapes where a
high-surrogate escape immediately followed by a low-surrogate escape forms
one supplementary code point, while a lone surrogate is kept as is, as in a
JavaScript string.  Unescaped control characters are rejected.  Fuel
bounds the recursion; every step consumes at least one input character, so
the wrapper below always supplies enough. -/
def parseStringBody : Nat → List Nat → Option (List Nat × List Nat)
  | 0, _ => none
  | _, [] => none
  | fuel + 1, c :: rest =>
    if c = 34 then some ([], rest)
    else if c = 92 then
      match rest with
      | [] => none
      | e :: r2 =>
        if e = 34 ∨ e = 92 ∨ e = 47 then consFst e (parseStringBody fuel r2)
        else if e = 98 then consFst 8 (parseStringBody fuel r2)
        else if e = 102 then consFst 12 (parseStringBody fuel r2)
        else if e = 110 then consFst 10 (parseStringBody fuel r2)
        else if e = 114 then consFst 13 (parseStringBody fuel r2)
        else if e = 116 then consFst 9 (parseStringBody fuel r2)
        else if e = 117 then
          match r2 with
          | h1 :: h2 :: h3 :: h4 :: r3 =>
            match hexVal h1, hexVal h2, hexVal h3, hexVal h4 with
            | some x1, some x2, some x3, some x4 =>
              if 0xD800 ≤ ((x1 * 16 + x2) * 16 + x3) * 16 + x4 ∧
                  ((x1 * 16 + x2) * 16 + x3) * 16 + x4 ≤ 0xDBFF then
                match r3 with
                | 92 :: 117 :: g1 :: g2 :: g3 :: g4 :: r5 =>
                  match hexVal g1, hexVal g2, hexVal g3, hexVal g4 with
                  | some y1, some y2, some y3, some y4 =>
                    if 0xDC00 ≤ ((y1 * 16 + y2) * 16 + y3) * 16 + y4 ∧
                        ((y1 * 16 + y2) * 16 + y3) * 16 + y4 ≤ 0xDFFF then
                      consFst (0x10000 +
                          (((x1 * 16 + x2) * 16 + x3) * 16 + x4 - 0xD800) * 1024 +
                          (((y1 * 16 + y2) * 16 + y3) * 16 + y4 - 0xDC00))
                        (parseStringBody fuel r5)
                    else
                      consFst (((x1 * 16 + x2) * 16 + x3) * 16 + x4)
                        (parseStringBody fuel r3)
                  | _, _, _, _ =>
                    consFst (((x1 * 16 + x2) * 16 + x3) * 16 + x4)
                      (parseStringBody fuel r3)
                | _ =>
                  consFst (((x1 * 16 + x2) * 16 + x3) * 16 + x4)
                    (parseStringBody fuel r3)
              else
                consFst (((x1 * 16 + x2) * 16 + x3) * 16 + x4)
                  (parseStringBody fuel r3)
            | _, _, _, _ => none
          | _ => none
        else none
    else if c ≤ 31 then none
    else consFst c (parseStringBody fuel rest)

/-- Parse a JSON string body with adequate fuel. -/
def parseJString (s : List Nat) : Option (List Nat × List Nat) :=
  parseStringBody (s.length + 1) s

/-- Integer part of a JSON number: a single zero, or a nonzero digit
followed by digits. -/
def parseIntPart : List Nat → Option (List Nat × List Nat)
  | [] => none
  | c :: rest =>
    if c = 48 then some ([48], rest)
    else if isDigit c then
      some (c :: rest.takeWhile isDigit, rest.dropWhile isDigit)
    else none

/-- Optional fraction part of a JSON number. -/
def parseFracPart (s : List Nat) : Option (List Nat × List Nat) :=
  match s with
  | 46 :: rest =>
    if rest.takeWhile isDigit = [] then none
    else some (46 :: rest.takeWhile isDigit, rest.dropWhile isDigit)
  | _ => some ([], s)

/-- Optional exponent part of a JSON number. -/
def parseExpPart (s : List Nat) : Option (List Nat × List Nat) :=
  match s with
  | c :: rest =>
    if c = 101 ∨ c = 69 then
      match rest with
      | c2 :: rest2 =>
        if c2 = 43 ∨ c2 = 45 then
          if rest2.takeWhile isDigit = [] then none
          else some (c :: c2 :: rest2.takeWhile isDigit, rest2.dropWhile isDigit)
        else
          if rest.takeWhile isDigit = [] then none
          else some (c :: rest.takeWhile isDigit, rest.dropWhile isDigit)
      | [] => none
    else some ([], s)
  | [] => some ([], [])

/-- A JSON number token: optional minus, integer part, optional fraction,
optional exponent.  Returns the raw token and the remaining input. -/
def parseNumberTok (s : List Nat) : Option (List Nat × List Nat) :=
  match s with
  | 45 :: r =>
    match parseIntPart r with
    | none => none
    | some (ip, s2) =>
      match parseFracPart s2 with
      | none => none
      | some (fp, s3) =>
        match parseExpPart s3 with
        | none => none
        | some (ep, s4) => some (45 :: (ip ++ fp ++ ep), s4)
  | _ =>
    match parseIntPart s with
    | none => none
    | some (ip, s2) =>
      match parseFracPart s2 with
      | none => none
      | some (fp, s3) =>
        match parseExpPart s3 with
        | none => none
        | some (ep, s4) => some (ip ++ fp ++ ep, s4)

mutual

/-- Parse one JSON value from the head of the input (no leading whitespace).
Fuel bounds the recursion depth; the top-level entry point passes enough
fuel that it can never run out on any input of the given length. -/
def parseVal : Nat → List Nat → Option (Json × List Nat)
  | 0, _ => none
  | fuel + 1, s =>
    match s with
    | [] => none
    | c :: rest =>
      if c = 110 then
        match rest with
        | 117 :: 108 :: 108 :: r => some (Json.null, r)
        | _ => none
      else if c = 116 then
        match rest with
        | 114 :: 117 :: 101 :: r => some (Json.bool true, r)
        | _ => none
      else if c = 102 then
        match rest with
        | 97 :: 108 :: 115 :: 101 :: r => some (Json.bool false, r)
        | _ => none
      else if c = 34 then
        match parseJString rest with
        | some (str, r) => some (Json.str str, r)
        | none => none
      else if c = 91 then
        match skipWS rest with
        | 93 :: r => some (Json.arr [], r)
        | s2 =>
          match parseArrayElems fuel s2 with
          | some (es, r) => some (Json.arr es, r)
          | none => none
      else if c = 123 then
        match skipWS rest with
        | 125 :: r => some (Json.obj [], r)
        | s2 =>
          match parseObjMembers fuel s2 with
          | some (fs, r) => some (Json.obj fs, r)
          | none => none
      else if c = 45 ∨ isDigit c then
        match parseNumberTok s with
        | some (tok, r) => some (Json.num tok, r)
        | none => none
      else none

/-- Parse the comma-separated elements of a nonempty JSON array, consuming
the closing bracket. -/
def parseArrayElems : Nat → List Nat → Option (List Json × List Nat)
  | 0, _ => none
  | fuel + 1, s =>
    match parseVal fuel s with
    | none => none
    | some (v, r) =>
      match skipWS r with
      | 44 :: r3 =>
        match parseArrayElems fuel (skipWS r3) with
        | some (vs, r4) => some (v :: vs, r4)
        | none => none
      | 93 :: r3 => some ([v], r3)
      | _ => none

/-- Parse the comma-separated members of a nonempty JSON object, consuming
the closing brace. -/
def parseObjMembers : Nat → List Nat → Option (List (List Nat × Json) × List Nat)
  | 0, _ => none
  | fuel + 1, s =>
    match s with
    | 34 :: rest =>
      match parseJString rest with
      | none => none
      | some (key, r) =>
        match skipWS r with
        | 58 :: r2 =>
          match parseVal fuel (skipWS r2) with
          | none => none
          | some (v, r3) =>
            match skipWS r3 with
            | 44 :: r4 =>
              match parseObjMembers fuel (skipWS r4) with
              | some (fs, r5) => some ((key, v) :: fs, r5)
              | none => none
            | 125 :: r4 => some ([(key, v)], r4)
            | _ => none
        | _ => none
    | _ => none

end

/-- JSON.parse: parse one value surrounded by optional whitespace and
require the whole input to be consumed, else fail (a SyntaxError in
JavaScript, modelled as none).  The fuel bound 2 * length + 2 exceeds the
longest possible chain of nested parser calls, each pair of which consumes
at least one input character. -/
def jsonParse (s : List Nat) : Option Json :=
  match parseVal (2 * s.length + 2) (skipWS s) with
  | some (v, r) => if skipWS r = [] then some v else none
  | none => none

/-- JavaScript property access on a JSON.parse result, for a non-numeric
key: on an object, the last member with that key wins, as later duplicate
keys overwrite earlier ones; on any other non-null value the result is
undefined, modelled as none.  Access on null throws and is handled at the
call sites. -/
def Json.getMember (j : Json) (k : List Nat) : Option Json :=
  match j with
  | Json.obj fs => fs.foldl (fun acc f => if f.1 = k then some f.2 else acc) none
  | _ => none

/-- Whether a JSON number token denotes zero: every digit before any
exponent marker is the digit zero.  No token parses to NaN. -/
def numTokenIsZero (raw : List Nat) : Bool :=
  (raw.takeWhile (fun c => !(c == 101 || c == 69))).all
    (fun c => !(isDigit c) || c == 48)

/-- JavaScript truthiness of a JSON.parse result. -/
def Json.truthy : Json → Bool
  | Json.null => false
  | Json.bool b => b
  | Json.num raw => !(numTokenIsZero raw)
  | Json.str s => !(s.isEmpty)
  | Json.arr _ => true
  | Json.obj _ => true

/-- JavaScript truthiness of a possibly-undefined value. -/
def truthyOpt : Option Json → Bool
  | none => false
  | some j => j.truthy

/-!
Section 3: the streaming decode loop of generateCompletionStream,
client.ts lines 267 to 313.
-/

/-- Code points removed by the trim() call at client.ts line 283:
JavaScript WhiteSpace and LineTerminator code points. -/
def jsTrimWS (c : Nat) : Bool :=
  decide (c = 9 ∨ c = 10 ∨ c = 11 ∨ c = 12 ∨ c = 13 ∨ c = 32 ∨ c = 0xA0 ∨
    c = 0x1680 ∨ (0x2000 ≤ c ∧ c ≤ 0x200A) ∨ c = 0x2028 ∨ c = 0x2029 ∨
    c = 0x202F ∨ c = 0x205F ∨ c = 0x3000 ∨ c = 0xFEFF)

/-- JavaScript String.prototype.trim. -/
def trimJS (s : List Nat) : List Nat :=
  ((s.dropWhile jsTrimWS).reverse.dropWhile jsTrimWS).reverse

/-- The argument object passed to the sink callback at client.ts line 289:
text is chunk.response and done is chunk.done, either of which may be
undefined when the parsed record lacks the field. -/
structure EmittedChunk where
  text : Option Json
  done : Option Json

/-- What one complete line of the buffer does: either nothing (empty after
trim, JSON.parse throws, or property access on a parsed null throws; all
are caught by the per-line catch and only logged), or one sink call. -/
inductive LineResult where
  | skip
  | emit (c : EmittedChunk)

/-- The field name response. -/
def respKey : List Nat :=
  codes ("response")

/-- The field name done. -/
def doneKey : List Nat :=
  codes ("done")

/-- Process one complete line, client.ts lines 283 to 300: trim it, skip
it when empty, JSON.parse it inside the try block, and on success invoke
the sink with the response and done fields.  A parse failure is caught and
logged; a parsed null makes the subsequent property access chunk.response
throw a TypeError, which the same catch swallows, so such a line is also
skipped. -/
def handleLine (line : List Nat) : LineResult :=
  if trimJS line = [] then LineResult.skip
  else
    match jsonParse (trimJS line) with
    | none => LineResult.skip
    | some Json.null => LineResult.skip
    | some chunk =>
      LineResult.emit ⟨chunk.getMember respKey, chunk.getMember doneKey⟩

/-- The sink argument a line produces, if any. -/
def lineChunk (line : List Nat) : Option EmittedChunk :=
  match handleLine line with
  | LineResult.skip => none
  | LineResult.emit c => some c

/-- Whether a line emits a chunk whose done field is truthy, triggering
the early return at client.ts lines 293 to 296. -/
def lineDone (line : List Nat) : Bool :=
  match lineChunk line with
  | none => false
  | some ch => truthyOpt ch.done

/-- Split a buffer at its first line feed, code point 10, as the indexOf
scan at client.ts lines 279 and 303 does: the line before it and the rest
after it, or none when the buffer holds no complete line. -/
def splitFirstLF : List Nat → Option (List Nat × List Nat)
  | [] => none
  | c :: rest =>
    if c = 10 then some ([], rest)
    else
      match splitFirstLF rest with
      | none => none
      | some lr => some (c :: lr.1, lr.2)

/-- The inner while loop over complete lines, client.ts lines 281 to 307,
with explicit fuel (each iteration strictly shrinks the buffer, so the
wrapper below can always supply enough).  Returns the sink calls made, the
remaining buffer kept for the next read, and whether the early return on a
truthy done field fired, in which case the remaining buffer is the
unconsumed part after the terminal line. -/
def processBufF : Nat → List Nat → List EmittedChunk × List Nat × Bool
  | 0, buf => ([], buf, false)
  | fuel + 1, buf =>
    match splitFirstLF buf with
    | none => ([], buf, false)
    | some (line, rest) =>
      match handleLine line with
      | LineResult.skip => processBufF fuel rest
      | LineResult.emit c =>
        if truthyOpt c.done then ([c], rest, true)
        else ((c :: (processBufF fuel rest).1), (processBufF fuel rest).2)

/-- The inner while loop with adequate fuel. -/
def processBuffer (buf : List Nat) : List EmittedChunk × List Nat × Bool :=
  processBufF (buf.length + 1) buf

/-- Observable outcome of one decode operation: the sequence of sink calls,
and whether reader.releaseLock() ran (the finally block at client.ts lines
309 to 311, which runs on every exit path of the loop). -/
structure StreamRunResult where
  emitted : List EmittedChunk
  readerReleased : Bool

/-- The outer while-true read loop, client.ts lines 270 to 308: state is
the incremental decoder state and the unconsumed text buffer; each
iteration reads one value, appends its decode to the buffer, and processes
all complete lines; a truthy done field returns at once, leaving the rest
of the stream unread; end-of-data breaks out cleanly. -/
def runReads : Utf8State → List Nat → List (List Nat) → StreamRunResult
  | _, _, [] => ⟨[], true⟩
  | u8, buffer, value :: rest =>
    if (processBuffer (buffer ++ (utf8Feed u8 value).2)).2.2 then
      ⟨(processBuffer (buffer ++ (utf8Feed u8 value).2)).1, true⟩
    else
      ⟨(processBuffer (buffer ++ (utf8Feed u8 value).2)).1 ++
          (runReads (utf8Feed u8 value).1
            (processBuffer (buffer ++ (utf8Feed u8 value).2)).2.1 rest).emitted,
        (runReads (utf8Feed u8 value).1
          (processBuffer (buffer ++ (utf8Feed u8 value).2)).2.1 rest).readerReleased⟩

/-- The whole decode phase of generateCompletionStream as a function of the
sequence of read results: fresh decoder, empty buffer. -/
def generateCompletionStream (reads : List (List Nat)) : StreamRunResult :=
  runReads Utf8State.init [] reads

/-!
Section 4: listModels and testConnection, client.ts lines 60 to 101.
-/

/-- Outcome of the fetch of the tags endpoint inside listModels: the
promise rejects (network failure), or a response arrives with an ok flag
and a body which either is not JSON (response.json() rejects, modelled as
none) or parses to a JSON value. -/
inductive FetchOutcome where
  | reject
  | response (ok : Bool) (body : Option Json)

/-- The field name models. -/
def modelsKey : List Nat :=
  codes ("models")

/-- The models array returned by OllamaClient.listModels, client.ts lines
73 to 101: a non-ok status throws inside the try, a rejected fetch or body
parse lands in the same catch, and all of these return an empty list; a
parsed body that is falsy or whose models field is not an array logs a
warning and returns an empty list; otherwise the models array is returned
as is. -/
def listModelsModels : FetchOutcome → List Json
  | FetchOutcome.reject => []
  | FetchOutcome.response ok body =>
    if ok = false then []
    else
      match body with
      | none => []
      | some data =>
        if data.truthy = false then []
        else
          match data.getMember modelsKey with
          | some (Json.arr ms) => ms
          | _ => []

/-- OllamaClient.testConnection, client.ts lines 60 to 68: listModels never
throws, so the try body always returns whether the models list is
nonempty. -/
def testConnection (o : FetchOutcome) : Bool :=
  decide (0 < (listModelsModels o).length)

/-!
Section 5: decoder lemmas.
-/

theorem utf8ProcessByte_init (b : Nat) :
    utf8ProcessByte Utf8State.init b = utf8HandleLead b := by
  simp [utf8ProcessByte, Utf8State.init]

theorem utf8HandleLead_ascii (b : Nat) (h : b ≤ 0x7F) :
    utf8HandleLead b = (Utf8State.init, [b]) := by
  simp [utf8HandleLead, h]

theorem utf8HandleLead_two (b : Nat) (h1 : 0xC2 ≤ b) (h2 : b ≤ 0xDF) :
    utf8HandleLead b = (⟨b - 0xC0, 0, 1, 0x80, 0xBF⟩, []) := by
  rw [utf8HandleLead, if_neg (by omega), if_pos ⟨h1, h2⟩]

theorem utf8HandleLead_three (b : Nat) (h1 : 0xE0 ≤ b) (h2 : b ≤ 0xEF) :
    utf8HandleLead b = (⟨b - 0xE0, 0, 2,
      if b = 0xE0 then 0xA0 else 0x80,
      if b = 0xED then 0x9F else 0xBF⟩, []) := by
  rw [utf8HandleLead, if_neg (by omega), if_neg (by omega), if_pos ⟨h1, h2⟩]

theorem utf8HandleLead_four (b : Nat) (h1 : 0xF0 ≤ b) (h2 : b ≤ 0xF4) :
    utf8HandleLead b = (⟨b - 0xF0, 0, 3,
      if b = 0xF0 then 0x90 else 0x80,
      if b = 0xF4 then 0x8F else 0xBF⟩, []) := by
  rw [utf8HandleLead, if_neg (by omega), if_neg (by omega), if_neg (by omega),
    if_pos ⟨h1, h2⟩]

theorem utf8ProcessByte_contFin (cp seen needed lB uB b : Nat)
    (hn : seen + 1 = needed) (hl : lB ≤ b) (hu : b ≤ uB) :
    utf8ProcessByte ⟨cp, seen, needed, lB, uB⟩ b =
      (Utf8State.init, [cp * 64 + (b - 0x80)]) := by
  simp only [utf8ProcessByte]
  rw [if_neg (by omega), if_pos ⟨hl, hu⟩, if_pos hn]

theorem utf8ProcessByte_contMore (cp seen needed lB uB b : Nat)
    (hn : needed ≠ 0) (hne : seen + 1 ≠ needed) (hl : lB ≤ b) (hu : b ≤ uB) :
    utf8ProcessByte ⟨cp, seen, needed, lB, uB⟩ b =
      (⟨cp * 64 + (b - 0x80), seen + 1, needed, 0x80, 0xBF⟩, []) := by
  simp only [utf8ProcessByte]
  rw [if_neg hn, if_pos ⟨hl, hu⟩, if_neg hne]

/-- Feeding a concatenation is feeding the parts in sequence: the machine
consumes bytes one at a time, so read-boundary placement is invisible. -/
theorem utf8Feed_append (st : Utf8State) (a b : List Nat) :
    utf8Feed st (a ++ b) =
      ((utf8Feed (utf8Feed st a).1 b).1,
        (utf8Feed st a).2 ++ (utf8Feed (utf8Feed st a).1 b).2) := by
  induction a generalizing st with
  | nil => simp [utf8Feed]
  | cons x xs ih =>
    simp only [List.cons_append, utf8Feed, List.append_eq, ih, List.append_assoc]

/-- Decoding the UTF-8 encoding of a single scalar value from the initial
state emits exactly that code point and returns to the initial state. -/
theorem utf8Feed_encode (c : Nat) (hc : ValidScalar c) :
    utf8Feed Utf8State.init (utf8Encode c) = (Utf8State.init, [c]) := by
  obtain ⟨h1, h2⟩ := hc
  by_cases ha : c ≤ 0x7F
  · have he : utf8Encode c = [c] := by unfold utf8Encode; rw [if_pos ha]
    rw [he]
    simp only [utf8Feed, utf8ProcessByte_init, utf8HandleLead_ascii c ha,
      List.append_nil, List.nil_append]
  · by_cases hb : c ≤ 0x7FF
    · have he : utf8Encode c = [0xC0 + c / 64, 0x80 + c % 64] := by
        unfold utf8Encode; rw [if_neg ha, if_pos hb]
      have s1 : utf8ProcessByte Utf8State.init (0xC0 + c / 64) =
          (⟨c / 64, 0, 1, 0x80, 0xBF⟩, []) := by
        rw [utf8ProcessByte_init, utf8HandleLead_two _ (by omega) (by omega)]
        simp
      have s2 : utf8ProcessByte ⟨c / 64, 0, 1, 0x80, 0xBF⟩ (0x80 + c % 64) =
          (Utf8State.init, [c]) := by
        rw [utf8ProcessByte_contFin _ _ _ _ _ _ rfl (by omega) (by omega)]
        simp only [Prod.mk.injEq, List.cons.injEq, and_true, true_and]
        omega
      rw [he]
      simp only [utf8Feed, s1, s2, List.append_nil, List.nil_append]
    · by_cases hcc : c ≤ 0xFFFF
      · have he : utf8Encode c = [0xE0 + c / 4096, 0x80 + c / 64 % 64, 0x80 + c % 64] := by
          unfold utf8Encode; rw [if_neg ha, if_neg hb, if_pos hcc]
        have s1 : utf8ProcessByte Utf8State.init (0xE0 + c / 4096) =
            (⟨c / 4096, 0, 2,
              if 0xE0 + c / 4096 = 0xE0 then 0xA0 else 0x80,
              if 0xE0 + c / 4096 = 0xED then 0x9F else 0xBF⟩, []) := by
          rw [utf8ProcessByte_init, utf8HandleLead_three _ (by omega) (by omega)]
          simp
        have hlo : (if 0xE0 + c / 4096 = 0xE0 then 0xA0 else 0x80) ≤ 0x80 + c / 64 % 64 := by
          by_cases h0 : 0xE0 + c / 4096 = 0xE0
          · rw [if_pos h0]; omega
          · rw [if_neg h0]; omega
        have hhi : 0x80 + c / 64 % 64 ≤ (if 0xE0 + c / 4096 = 0xED then 0x9F else 0xBF) := by
          by_cases h0 : 0xE0 + c / 4096 = 0xED
          · rw [if_pos h0]; omega
          · rw [if_neg h0]; omega
        have s2 : utf8ProcessByte ⟨c / 4096, 0, 2,
              if 0xE0 + c / 4096 = 0xE0 then 0xA0 else 0x80,
              if 0xE0 + c / 4096 = 0xED then 0x9F else 0xBF⟩ (0x80 + c / 64 % 64) =
            (⟨c / 4096 * 64 + c / 64 % 64, 1, 2, 0x80, 0xBF⟩, []) := by
          rw [utf8ProcessByte_contMore _ _ _ _ _ _ (by omega) (by omega) hlo hhi]
          simp only [Prod.mk.injEq, and_true, true_and, Utf8State.mk.injEq]
          omega
        have s3 : utf8ProcessByte ⟨c / 4096 * 64 + c / 64 % 64, 1, 2, 0x80, 0xBF⟩
              (0x80 + c % 64) = (Utf8State.init, [c]) := by
          rw [utf8ProcessByte_contFin _ _ _ _ _ _ rfl (by omega) (by omega)]
          simp only [Prod.mk.injEq, List.cons.injEq, and_true, true_and]
          omega
        rw [he]
        simp only [utf8Feed, s1, s2, s3, List.append_nil, List.nil_append]
      · have he : utf8Encode c =
            [0xF0 + c / 262144, 0x80 + c / 4096 % 64, 0x80 + c / 64 % 64, 0x80 + c % 64] := by
          unfold utf8Encode; rw [if_neg ha, if_neg hb, if_neg hcc]
        have s1 : utf8ProcessByte Utf8State.init (0xF0 + c / 262144) =
            (⟨c / 262144, 0, 3,
              if 0xF0 + c / 262144 = 0xF0 then 0x90 else 0x80,
              if 0xF0 + c / 262144 = 0xF4 then 0x8F else 0xBF⟩, []) := by
          rw [utf8ProcessByte_init, utf8HandleLead_four _ (by omega) (by omega)]
          simp
        have hlo : (if 0xF0 + c / 262144 = 0xF0 then 0x90 else 0x80) ≤ 0x80 + c / 4096 % 64 := by
          by_cases h0 : 0xF0 + c / 262144 = 0xF0
          · rw [if_pos h0]; omega
          · rw [if_neg h0]; omega
        have hhi : 0x80 + c / 4096 % 64 ≤ (if 0xF0 + c / 262144 = 0xF4 then 0x8F else 0xBF) := by
          by_cases h0 : 0xF0 + c / 262144 = 0xF4
          · rw [if_pos h0]; omega
          · rw [if_neg h0]; omega
        have s2 : utf8ProcessByte ⟨c / 262144, 0, 3,
              if 0xF0 + c / 262144 = 0xF0 then 0x90 else 0x80,
              if 0xF0 + c / 262144 = 0xF4 then 0x8F else 0xBF⟩ (0x80 + c / 4096 % 64) =
            (⟨c / 262144 * 64 + c / 4096 % 64, 1, 3, 0x80, 0xBF⟩, []) := by
          rw [utf8ProcessByte_contMore _ _ _ _ _ _ (by omega) (by omega) hlo hhi]
          simp only [Prod.mk.injEq, and_true, true_and, Utf8State.mk.injEq]
          omega
        have s3 : utf8ProcessByte ⟨c / 262144 * 64 + c / 4096 % 64, 1, 3, 0x80, 0xBF⟩
              (0x80 + c / 64 % 64) =
            (⟨(c / 262144 * 64 + c / 4096 % 64) * 64 + c / 64 % 64, 2, 3, 0x80, 0xBF⟩, []) := by
          rw [utf8ProcessByte_contMore _ _ _ _ _ _ (by omega) (by omega) (by omega) (by omega)]
          simp only [Prod.mk.injEq, and_true, true_and, Utf8State.mk.injEq]
          omega
        have s4 : utf8ProcessByte ⟨(c / 262144 * 64 + c / 4096 % 64) * 64 + c / 64 % 64, 2, 3,
              0x80, 0xBF⟩ (0x80 + c % 64) = (Utf8State.init, [c]) := by
          rw [utf8ProcessByte_contFin _ _ _ _ _ _ rfl (by omega) (by omega)]
          simp only [Prod.mk.injEq, List.cons.injEq, and_true, true_and]
          have e1 : c / 262144 * 64 + c / 4096 % 64 = c / 4096 := by omega
          rw [e1]
          have e2 : c / 4096 * 64 + c / 64 % 64 = c / 64 := by omega
          rw [e2]
          omega
        rw [he]
        simp only [utf8Feed, s1, s2, s3, s4, List.append_nil, List.nil_append]

/-- Decoding the UTF-8 encoding of a sequence of scalar values from the
initial state emits exactly those code points. -/
theorem utf8Feed_encodeAll (cs : List Nat) (h : ∀ c ∈ cs, ValidScalar c) :
    utf8Feed Utf8State.init (utf8EncodeAll cs) = (Utf8State.init, cs) := by
  induction cs with
  | nil => simp [utf8EncodeAll, utf8Feed]
  | cons c cs ih =>
    have hc : ValidScalar c := h c (by simp)
    have hrest : ∀ x ∈ cs, ValidScalar x := fun x hx => h x (by simp [hx])
    have hflat : utf8EncodeAll (c :: cs) = utf8Encode c ++ utf8EncodeAll cs := by
      simp [utf8EncodeAll]
    rw [hflat, utf8Feed_append, utf8Feed_encode c hc, ih hrest]
    simp

/-!
Section 6: line-splitting and buffer-loop lemmas.
-/

theorem splitFirstLF_some : ∀ (buf l r : List Nat), splitFirstLF buf = some (l, r) →
    buf = l ++ 10 :: r ∧ splitFirstLF l = none := by
  intro buf
  induction buf with
  | nil => intro l r h; simp [splitFirstLF] at h
  | cons c rest ih =>
    intro l r h
    rw [splitFirstLF] at h
    by_cases hc : c = 10
    · rw [if_pos hc] at h
      injection h with h'
      injection h' with e1 e2
      subst e1; subst e2
      exact ⟨by simp [hc], rfl⟩
    · rw [if_neg hc] at h
      cases hs : splitFirstLF rest with
      | none => rw [hs] at h; exact absurd h (by simp)
      | some lr =>
        rw [hs] at h
        injection h with h'
        injection h' with e1 e2
        subst e1; subst e2
        obtain ⟨hb, hn⟩ := ih lr.1 lr.2 (by rw [hs])
        constructor
        · rw [List.cons_append]
          exact congrArg (c :: ·) hb
        · simp [splitFirstLF, hc, hn]

theorem splitFirstLF_length (buf l r : List Nat) (h : splitFirstLF buf = some (l, r)) :
    buf.length = l.length + 1 + r.length := by
  obtain ⟨hb, _⟩ := splitFirstLF_some buf l r h
  subst hb
  simp [List.length_append]
  omega

theorem splitFirstLF_none_cons (c : Nat) (rest : List Nat)
    (h : splitFirstLF (c :: rest) = none) :
    c ≠ 10 ∧ splitFirstLF rest = none := by
  by_cases hc : c = 10
  · rw [splitFirstLF, if_pos hc] at h
    exact absurd h (by simp)
  · refine ⟨hc, ?_⟩
    rw [splitFirstLF, if_neg hc] at h
    cases hs : splitFirstLF rest with
    | none => rfl
    | some lr => rw [hs] at h; exact absurd h (by simp)

theorem splitFirstLF_none_append (x y : List Nat) (hx : splitFirstLF x = none) :
    splitFirstLF (x ++ 10 :: y) = some (x, y) := by
  induction x with
  | nil => simp [splitFirstLF]
  | cons c rest ih =>
    obtain ⟨hc, hr⟩ := splitFirstLF_none_cons c rest hx
    simp [splitFirstLF, hc, ih hr]

theorem splitFirstLF_append_some (x y l r : List Nat)
    (h : splitFirstLF x = some (l, r)) :
    splitFirstLF (x ++ y) = some (l, r ++ y) := by
  obtain ⟨hb, hn⟩ := splitFirstLF_some x l r h
  subst hb
  rw [List.append_assoc, List.cons_append]
  exact splitFirstLF_none_append l (r ++ y) hn

theorem processBufF_fuel : ∀ (f1 f2 : Nat) (buf : List Nat),
    buf.length < f1 → buf.length < f2 → processBufF f1 buf = processBufF f2 buf := by
  intro f1
  induction f1 with
  | zero => intro f2 buf h1 h2; exact absurd h1 (Nat.not_lt_zero _)
  | succ k ih =>
    intro f2 buf h1 h2
    cases f2 with
    | zero => exact absurd h2 (Nat.not_lt_zero _)
    | succ m =>
      simp only [processBufF]
      cases hs : splitFirstLF buf with
      | none => rfl
      | some lr =>
        obtain ⟨l, r⟩ := lr
        have hlen : r.length < buf.length := by
          have := splitFirstLF_length buf l r hs
          omega
        simp only
        cases hh : handleLine l with
        | skip => exact ih m r (by omega) (by omega)
        | emit c =>
          by_cases hd : truthyOpt c.done
          · simp [hd]
          · simp only [hd, if_neg, Bool.false_eq_true, if_false]
            rw [ih m r (by omega) (by omega)]

theorem processBuffer_split_none (buf : List Nat) (hs : splitFirstLF buf = none) :
    processBuffer buf = ([], buf, false) := by
  unfold processBuffer
  simp only [processBufF, hs]

theorem processBuffer_split_skip (buf l r : List Nat)
    (hs : splitFirstLF buf = some (l, r)) (hh : handleLine l = LineResult.skip) :
    processBuffer buf = processBuffer r := by
  have hlen : r.length < buf.length := by
    have := splitFirstLF_length buf l r hs
    omega
  have key : processBuffer buf = processBufF buf.length r := by
    unfold processBuffer
    simp only [processBufF, hs, hh]
  rw [key, processBufF_fuel buf.length (r.length + 1) r (by omega) (by omega)]
  rfl

theorem processBuffer_split_emit (buf l r : List Nat) (ch : EmittedChunk)
    (hs : splitFirstLF buf = some (l, r)) (hh : handleLine l = LineResult.emit ch)
    (hd : truthyOpt ch.done = false) :
    processBuffer buf = (ch :: (processBuffer r).1, (processBuffer r).2) := by
  have hlen : r.length < buf.length := by
    have := splitFirstLF_length buf l r hs
    omega
  have key : processBuffer buf =
      (ch :: (processBufF buf.length r).1, (processBufF buf.length r).2) := by
    unfold processBuffer
    simp only [processBufF, hs, hh, hd, Bool.false_eq_true, if_false]
  rw [key, processBufF_fuel buf.length (r.length + 1) r (by omega) (by omega)]
  rfl

theorem processBuffer_split_emit_done (buf l r : List Nat) (ch : EmittedChunk)
    (hs : splitFirstLF buf = some (l, r)) (hh : handleLine l = LineResult.emit ch)
    (hd : truthyOpt ch.done = true) :
    processBuffer buf = ([ch], r, true) := by
  unfold processBuffer
  simp only [processBufF, hs, hh, hd, if_true]

theorem processBuffer_noLF_aux : ∀ (n : Nat) (buf : List Nat), buf.length ≤ n →
    (processBuffer buf).2.2 = false → splitFirstLF (processBuffer buf).2.1 = none := by
  intro n
  induction n with
  | zero =>
    intro buf hlen _
    have ha : buf = [] := List.eq_nil_of_length_eq_zero (by omega)
    subst ha
    rw [processBuffer_split_none [] rfl]
    rfl
  | succ k ih =>
    intro buf hlen hd
    cases hs : splitFirstLF buf with
    | none => rw [processBuffer_split_none buf hs]; exact hs
    | some lr =>
      obtain ⟨l, r⟩ := lr
      have hr : r.length ≤ k := by
        have := splitFirstLF_length buf l r hs
        omega
      cases hh : handleLine l with
      | skip =>
        rw [processBuffer_split_skip buf l r hs hh] at hd ⊢
        exact ih r hr hd
      | emit ch =>
        cases hdone : truthyOpt ch.done with
        | true =>
          rw [processBuffer_split_emit_done buf l r ch hs hh hdone] at hd
          exact absurd hd (by simp)
        | false =>
          rw [processBuffer_split_emit buf l r ch hs hh hdone] at hd ⊢
          exact ih r hr hd

/-- When the inner loop finishes without the early return, its remaining
buffer holds no complete line. -/
theorem processBuffer_noLF (buf : List Nat) (hd : (processBuffer buf).2.2 = false) :
    splitFirstLF (processBuffer buf).2.1 = none :=
  processBuffer_noLF_aux buf.length buf (le_refl _) hd

theorem processBuffer_append_aux : ∀ (n : Nat) (a : List Nat), a.length ≤ n →
    ∀ (c : List Nat) (es : List EmittedChunk) (b : List Nat),
    processBuffer a = (es, b, false) →
    processBuffer (a ++ c) =
      (es ++ (processBuffer (b ++ c)).1, (processBuffer (b ++ c)).2) := by
  intro n
  induction n with
  | zero =>
    intro a hlen c es b h
    have ha : a = [] := List.eq_nil_of_length_eq_zero (by omega)
    subst ha
    rw [processBuffer_split_none [] rfl] at h
    injection h with e1 e2
    injection e2 with e2 e3
    subst e1; subst e2
    simp
  | succ k ih =>
    intro a hlen c es b h
    cases hs : splitFirstLF a with
    | none =>
      rw [processBuffer_split_none a hs] at h
      injection h with e1 e2
      injection e2 with e2 e3
      subst e1; subst e2
      simp
    | some lr =>
      obtain ⟨l, r⟩ := lr
      have hr : r.length ≤ k := by
        have := splitFirstLF_length a l r hs
        omega
      have hsc : splitFirstLF (a ++ c) = some (l, r ++ c) :=
        splitFirstLF_append_some a c l r hs
      cases hh : handleLine l with
      | skip =>
        rw [processBuffer_split_skip a l r hs hh] at h
        rw [processBuffer_split_skip (a ++ c) l (r ++ c) hsc hh]
        exact ih r hr c es b h
      | emit ch =>
        cases hdone : truthyOpt ch.done with
        | true =>
          rw [processBuffer_split_emit_done a l r ch hs hh hdone] at h
          injection h with e1 e2
          injection e2 with e2 e3
          exact absurd e3 (by simp)
        | false =>
          rw [processBuffer_split_emit a l r ch hs hh hdone] at h
          rw [processBuffer_split_emit (a ++ c) l (r ++ c) ch hsc hh hdone]
          rcases hpr : processBuffer r with ⟨es1, b1, d1⟩
          rw [hpr] at h
          simp only [Prod.mk.injEq] at h
          obtain ⟨e1, e2, e3⟩ := h
          subst e2; subst e3; subst e1
          rw [ih r hr c es1 b1 hpr]
          simp

/-- Lines already scanned are unaffected by text appended later: the inner
loop on a buffer that did not return early, followed by more text, emits
its chunks and then processes the leftover plus the new text. -/
theorem processBuffer_append (a c : List Nat) (es : List EmittedChunk) (b : List Nat)
    (h : processBuffer a = (es, b, false)) :
    processBuffer (a ++ c) =
      (es ++ (processBuffer (b ++ c)).1, (processBuffer (b ++ c)).2) :=
  processBuffer_append_aux a.length a (le_refl _) c es b h

theorem processBuffer_append_done_aux : ∀ (n : Nat) (a : List Nat), a.length ≤ n →
    ∀ (c : List Nat) (es : List EmittedChunk) (b : List Nat),
    processBuffer a = (es, b, true) →
    processBuffer (a ++ c) = (es, b ++ c, true) := by
  intro n
  induction n with
  | zero =>
    intro a hlen c es b h
    have ha : a = [] := List.eq_nil_of_length_eq_zero (by omega)
    subst ha
    rw [processBuffer_split_none [] rfl] at h
    simp only [Prod.mk.injEq] at h
    exact absurd h.2.2 (by simp)
  | succ k ih =>
    intro a hlen c es b h
    cases hs : splitFirstLF a with
    | none =>
      rw [processBuffer_split_none a hs] at h
      simp only [Prod.mk.injEq] at h
      exact absurd h.2.2 (by simp)
    | some lr =>
      obtain ⟨l, r⟩ := lr
      have hr : r.length ≤ k := by
        have := splitFirstLF_length a l r hs
        omega
      have hsc : splitFirstLF (a ++ c) = some (l, r ++ c) :=
        splitFirstLF_append_some a c l r hs
      cases hh : handleLine l with
      | skip =>
        rw [processBuffer_split_skip a l r hs hh] at h
        rw [processBuffer_split_skip (a ++ c) l (r ++ c) hsc hh]
        exact ih r hr c es b h
      | emit ch =>
        cases hdone : truthyOpt ch.done with
        | true =>
          rw [processBuffer_split_emit_done a l r ch hs hh hdone] at h
          simp only [Prod.mk.injEq] at h
          obtain ⟨e1, e2, _⟩ := h
          subst e1; subst e2
          rw [processBuffer_split_emit_done (a ++ c) l (r ++ c) ch hsc hh hdone]
        | false =>
          rw [processBuffer_split_emit a l r ch hs hh hdone] at h
          rw [processBuffer_split_emit (a ++ c) l (r ++ c) ch hsc hh hdone]
          rcases hpr : processBuffer r with ⟨es1, b1, d1⟩
          rw [hpr] at h
          simp only [Prod.mk.injEq] at h
          obtain ⟨e1, e2, e3⟩ := h
          subst e2; subst e3; subst e1
          rw [ih r hr c es1 b1 hpr]

/-- Once the inner loop has returned early on a truthy done field, text
appended to the buffer afterwards changes nothing but the dead leftover. -/
theorem processBuffer_append_done (a c : List Nat) (es : List EmittedChunk) (b : List Nat)
    (h : processBuffer a = (es, b, true)) :
    processBuffer (a ++ c) = (es, b ++ c, true) :=
  processBuffer_append_done_aux a.length a (le_refl _) c es b h

theorem processBuffer_done_inv_aux : ∀ (n : Nat) (buf : List Nat), buf.length ≤ n →
    ((processBuffer buf).2.2 = false →
      ∀ ch ∈ (processBuffer buf).1, truthyOpt ch.done = false) ∧
    ((processBuffer buf).2.2 = true →
      ∃ es0 chl, (processBuffer buf).1 = es0 ++ [chl] ∧
        truthyOpt chl.done = true ∧ ∀ x ∈ es0, truthyOpt x.done = false) := by
  intro n
  induction n with
  | zero =>
    intro buf hlen
    have ha : buf = [] := List.eq_nil_of_length_eq_zero (by omega)
    subst ha
    rw [processBuffer_split_none [] rfl]
    constructor
    · intro _ ch hch
      exact absurd hch (by simp)
    · intro hd
      exact absurd hd (by simp)
  | succ k ih =>
    intro buf hlen
    cases hs : splitFirstLF buf with
    | none =>
      rw [processBuffer_split_none buf hs]
      constructor
      · intro _ ch hch
        exact absurd hch (by simp)
      · intro hd
        exact absurd hd (by simp)
    | some lr =>
      obtain ⟨l, r⟩ := lr
      have hr : r.length ≤ k := by
        have := splitFirstLF_length buf l r hs
        omega
      cases hh : handleLine l with
      | skip =>
        rw [processBuffer_split_skip buf l r hs hh]
        exact ih r hr
      | emit ch =>
        cases hdone : truthyOpt ch.done with
        | true =>
          rw [processBuffer_split_emit_done buf l r ch hs hh hdone]
          constructor
          · intro hd
            exact absurd hd (by simp)
          · intro _
            exact ⟨[], ch, by simp, hdone, by simp⟩
        | false =>
          rw [processBuffer_split_emit buf l r ch hs hh hdone]
          rcases hpr : processBuffer r with ⟨es1, b1, d1⟩
          have ihr := ih r hr
          rw [hpr] at ihr
          constructor
          · intro hd ch2 hch2
            simp only at hd
            rcases List.mem_cons.mp hch2 with h1 | h1
            · rw [h1]; exact hdone
            · exact ihr.1 hd ch2 h1
          · intro hd
            simp only at hd
            obtain ⟨es0, chl, heq, hc, hall⟩ := ihr.2 hd
            refine ⟨ch :: es0, chl, ?_, hc, ?_⟩
            · simp only [List.cons_append]
              exact congrArg (List.cons ch) heq
            · intro x hx
              rcases List.mem_cons.mp hx with h1 | h1
              · rw [h1]; exact hdone
              · exact hall x h1

/-- Chunk-level shape of one inner-loop pass: without the early return no
emitted chunk has a truthy done field; with it the truthy chunk is the
last one emitted and all before it are not truthy. -/
theorem processBuffer_done_inv (buf : List Nat) :
    ((processBuffer buf).2.2 = false →
      ∀ ch ∈ (processBuffer buf).1, truthyOpt ch.done = false) ∧
    ((processBuffer buf).2.2 = true →
      ∃ es0 chl, (processBuffer buf).1 = es0 ++ [chl] ∧
        truthyOpt chl.done = true ∧ ∀ x ∈ es0, truthyOpt x.done = false) :=
  processBuffer_done_inv_aux buf.length buf (le_refl _)

/-- The outer read loop is equivalent to decoding the whole byte stream at
once and running one inner-loop pass over its text: chunking of reads is
invisible, the early return included, and the reader is always released. -/
theorem runReads_eq : ∀ (reads : List (List Nat)) (u8 : Utf8State) (buffer : List Nat),
    splitFirstLF buffer = none →
    runReads u8 buffer reads =
      ⟨(processBuffer (buffer ++ (utf8Feed u8 reads.flatten).2)).1, true⟩ := by
  intro reads
  induction reads with
  | nil =>
    intro u8 buffer hb
    simp only [runReads, List.flatten_nil, utf8Feed]
    rw [List.append_nil, processBuffer_split_none buffer hb]
  | cons value rest ih =>
    intro u8 buffer hb
    simp only [runReads]
    have hflat : (value :: rest).flatten = value ++ rest.flatten := by simp
    rw [hflat, utf8Feed_append, ← List.append_assoc]
    rcases hp : processBuffer (buffer ++ (utf8Feed u8 value).2) with ⟨es, b, d⟩
    cases d with
    | true =>
      simp only [if_true]
      rw [processBuffer_append_done (buffer ++ (utf8Feed u8 value).2)
        (utf8Feed (utf8Feed u8 value).1 rest.flatten).2 es b hp]
    | false =>
      simp only [Bool.false_eq_true, if_false]
      have hbn : splitFirstLF b = none := by
        have := processBuffer_noLF (buffer ++ (utf8Feed u8 value).2) (by rw [hp])
        rw [hp] at this
        exact this
      rw [ih (utf8Feed u8 value).1 b hbn]
      rw [processBuffer_append (buffer ++ (utf8Feed u8 value).2)
        (utf8Feed (utf8Feed u8 value).1 rest.flatten).2 es b hp]

/-- The decode phase of generateCompletionStream depends on the byte
stream only through its concatenated content. -/
theorem generateCompletionStream_eq (reads : List (List Nat)) :
    generateCompletionStream reads =
      ⟨(processBuffer (utf8Feed Utf8State.init reads.flatten).2).1, true⟩ := by
  unfold generateCompletionStream
  rw [runReads_eq reads Utf8State.init [] rfl]
  simp

/-!
Section 7: line-list lemmas and the core characterisation.
-/

theorem lineChunk_none_iff (l : List Nat) :
    lineChunk l = none ↔ handleLine l = LineResult.skip := by
  cases hh : handleLine l <;> simp [lineChunk, hh]

theorem lineChunk_emit_iff (l : List Nat) (ch : EmittedChunk) :
    lineChunk l = some ch ↔ handleLine l = LineResult.emit ch := by
  cases hh : handleLine l <;> simp [lineChunk, hh]

theorem lineDone_false_chunk (l : List Nat) (ch : EmittedChunk)
    (h : lineDone l = false) (hc : lineChunk l = some ch) :
    truthyOpt ch.done = false := by
  unfold lineDone at h
  rw [hc] at h
  exact h

theorem lineDone_true_chunk (l : List Nat) (ch : EmittedChunk)
    (h : lineDone l = true) (hc : lineChunk l = some ch) :
    truthyOpt ch.done = true := by
  unfold lineDone at h
  rw [hc] at h
  exact h

/-- One inner-loop pass over a buffer of newline-terminated lines, none of
which triggers the early return: every line contributes its sink call, or
nothing when it is skipped, in order, and the buffer is fully consumed. -/
theorem processBuffer_lines : ∀ (ls : List (List Nat)),
    (∀ l ∈ ls, splitFirstLF l = none) →
    (∀ l ∈ ls, lineDone l = false) →
    processBuffer ((ls.map (fun l => l ++ [10])).flatten) =
      (ls.filterMap lineChunk, [], false) := by
  intro ls
  induction ls with
  | nil =>
    intro _ _
    simp only [List.map_nil, List.flatten_nil, List.filterMap_nil]
    exact processBuffer_split_none [] rfl
  | cons l ls ih =>
    intro hnoLF hnd
    have hl : splitFirstLF l = none := hnoLF l (by simp)
    have hsplit : splitFirstLF ((l ++ [10]) ++ (ls.map (fun x => x ++ [10])).flatten) =
        some (l, (ls.map (fun x => x ++ [10])).flatten) := by
      rw [List.append_assoc]
      exact splitFirstLF_none_append l _ hl
    have ihr := ih (fun x hx => hnoLF x (by simp [hx])) (fun x hx => hnd x (by simp [hx]))
    simp only [List.map_cons, List.flatten_cons]
    cases hch : lineChunk l with
    | none =>
      have hh : handleLine l = LineResult.skip := (lineChunk_none_iff l).mp hch
      rw [processBuffer_split_skip _ l _ hsplit hh, ihr]
      simp [List.filterMap_cons, hch]
    | some ch =>
      have hh : handleLine l = LineResult.emit ch := (lineChunk_emit_iff l ch).mp hch
      have hdf : truthyOpt ch.done = false := lineDone_false_chunk l ch (hnd l (by simp)) hch
      rw [processBuffer_split_emit _ l _ ch hsplit hh hdf, ihr]
      simp [List.filterMap_cons, hch]

/-- One inner-loop pass when a line with a truthy done field follows lines
without one: the pass emits the earlier chunks, then the terminal chunk,
and returns at once, leaving everything after that line unconsumed. -/
theorem processBuffer_lines_done : ∀ (ls : List (List Nat)) (l tail : List Nat)
    (ch : EmittedChunk),
    (∀ x ∈ ls, splitFirstLF x = none) → splitFirstLF l = none →
    (∀ x ∈ ls, lineDone x = false) →
    lineChunk l = some ch → truthyOpt ch.done = true →
    processBuffer ((ls.map (fun x => x ++ [10])).flatten ++ (l ++ 10 :: tail)) =
      (ls.filterMap lineChunk ++ [ch], tail, true) := by
  intro ls
  induction ls with
  | nil =>
    intro l tail ch _ hl _ hch hd
    simp only [List.map_nil, List.flatten_nil, List.nil_append, List.filterMap_nil]
    exact processBuffer_split_emit_done _ l tail ch (splitFirstLF_none_append l tail hl)
      ((lineChunk_emit_iff l ch).mp hch) hd
  | cons x ls ih =>
    intro l tail ch hno hl hnd hch hd
    have hx : splitFirstLF x = none := hno x (by simp)
    have hsplit : splitFirstLF (((x ++ [10]) ++ (ls.map (fun y => y ++ [10])).flatten) ++
        (l ++ 10 :: tail)) =
        some (x, (ls.map (fun y => y ++ [10])).flatten ++ (l ++ 10 :: tail)) := by
      rw [List.append_assoc, List.append_assoc]
      exact splitFirstLF_none_append x _ hx
    have ihr := ih l tail ch (fun y hy => hno y (by simp [hy])) hl
      (fun y hy => hnd y (by simp [hy])) hch hd
    simp only [List.map_cons, List.flatten_cons]
    cases hcx : lineChunk x with
    | none =>
      have hh : handleLine x = LineResult.skip := (lineChunk_none_iff x).mp hcx
      rw [processBuffer_split_skip _ x _ hsplit hh, ihr]
      simp [List.filterMap_cons, hcx]
    | some chx =>
      have hh : handleLine x = LineResult.emit chx := (lineChunk_emit_iff x chx).mp hcx
      have hdf : truthyOpt chx.done = false := lineDone_false_chunk x chx (hnd x (by simp)) hcx
      rw [processBuffer_split_emit _ x _ chx hsplit hh hdf, ihr]
      simp [List.filterMap_cons, hcx]

/-- One inner-loop pass over newline-terminated non-terminal lines followed
by a trailing fragment without a newline: the fragment is left in the
buffer untouched and contributes no sink call. -/
theorem processBuffer_lines_tail (ls : List (List Nat)) (tail : List Nat)
    (hno : ∀ l ∈ ls, splitFirstLF l = none)
    (hnd : ∀ l ∈ ls, lineDone l = false)
    (htail : splitFirstLF tail = none) :
    processBuffer ((ls.map (fun l => l ++ [10])).flatten ++ tail) =
      (ls.filterMap lineChunk, tail, false) := by
  rw [processBuffer_append _ tail _ [] (processBuffer_lines ls hno hnd)]
  simp only [List.nil_append]
  rw [processBuffer_split_none tail htail]
  simp

/-- Core characterisation of the decode phase: when the decoded content is
a sequence of newline-terminated lines, none of which before the last
triggers the early return, followed by an incomplete trailing fragment,
the sink calls are exactly the chunks of those lines in order. -/
theorem gcs_emitted_lines_tail (reads ls : List (List Nat)) (tail : List Nat)
    (hdec : (utf8Feed Utf8State.init reads.flatten).2 =
      (ls.map (fun l => l ++ [10])).flatten ++ tail)
    (hnoLF : ∀ l ∈ ls, splitFirstLF l = none)
    (htail : splitFirstLF tail = none)
    (hnd : ∀ l ∈ ls.dropLast, lineDone l = false) :
    (generateCompletionStream reads).emitted = ls.filterMap lineChunk := by
  rw [generateCompletionStream_eq, hdec]
  rcases List.eq_nil_or_concat ls with rfl | ⟨ls0, l, rfl⟩
  · simp only [List.map_nil, List.flatten_nil, List.nil_append, List.filterMap_nil]
    rw [processBuffer_split_none tail htail]
  · rw [List.concat_eq_append] at hdec hnoLF hnd ⊢
    have hnd0 : ∀ x ∈ ls0, lineDone x = false := by
      intro x hx
      exact hnd x (by rw [List.dropLast_concat]; exact hx)
    have hno0 : ∀ x ∈ ls0, splitFirstLF x = none := fun x hx => hnoLF x (by simp [hx])
    have hnol : splitFirstLF l = none := hnoLF l (by simp)
    cases hld : lineDone l with
    | false =>
      have hndall : ∀ x ∈ ls0 ++ [l], lineDone x = false := by
        intro x hx
        rcases List.mem_append.mp hx with h | h
        · exact hnd0 x h
        · rw [List.mem_singleton.mp h]
          exact hld
      rw [processBuffer_lines_tail (ls0 ++ [l]) tail hnoLF hndall htail]
    | true =>
      have hsome : ∃ ch, lineChunk l = some ch := by
        unfold lineDone at hld
        cases hc : lineChunk l with
        | none => rw [hc] at hld; exact absurd hld (by simp)
        | some ch => exact ⟨ch, rfl⟩
      obtain ⟨ch, hch⟩ := hsome
      have hdt : truthyOpt ch.done = true := lineDone_true_chunk l ch hld hch
      have hcontent : ((ls0 ++ [l]).map (fun x => x ++ [10])).flatten ++ tail =
          (ls0.map (fun x => x ++ [10])).flatten ++ (l ++ 10 :: tail) := by
        simp [List.map_append, List.flatten_append, List.append_assoc]
      rw [hcontent, processBuffer_lines_done ls0 l tail ch hno0 hnol hnd0 hch hdt]
      simp [List.filterMap_append, List.filterMap_cons, hch]

/-- A list of lines that all produce a sink call produces exactly one call
per line. -/
theorem filterMap_lineChunk_length (ls : List (List Nat))
    (h : ∀ l ∈ ls, (lineChunk l).isSome) :
    (ls.filterMap lineChunk).length = ls.length := by
  induction ls with
  | nil => simp
  | cons l ls ih =>
    have hl := h l (by simp)
    cases hc : lineChunk l with
    | none => rw [hc] at hl; simp at hl
    | some ch =>
      simp [List.filterMap_cons, hc, ih (fun x hx => h x (by simp [hx]))]

/-- Core characterisation without a trailing fragment. -/
theorem gcs_emitted_lines (reads ls : List (List Nat))
    (hdec : (utf8Feed Utf8State.init reads.flatten).2 =
      (ls.map (fun l => l ++ [10])).flatten)
    (hnoLF : ∀ l ∈ ls, splitFirstLF l = none)
    (hnd : ∀ l ∈ ls.dropLast, lineDone l = false) :
    (generateCompletionStream reads).emitted = ls.filterMap lineChunk :=
  gcs_emitted_lines_tail reads ls [] (by rw [List.append_nil]; exact hdec) hnoLF rfl hnd

/-!
Section 8: the claims.
-/

/-- C1: for every sequence of N valid newline-terminated JSON record lines,
none of which has done equal true except possibly the last, and for every
partition of that content into successive reads of the underlying byte
stream, the streaming decode loop of generateCompletionStream invokes the
sink callback exactly N times, once per record, in the order the records
appear in the stream. -/
theorem C1_sink_once_per_record_in_order (reads ls : List (List Nat))
    (hdec : (utf8Feed Utf8State.init reads.flatten).2 =
      (ls.map (fun l => l ++ [10])).flatten)
    (hnoLF : ∀ l ∈ ls, splitFirstLF l = none)
    (hrec : ∀ l ∈ ls, (lineChunk l).isSome)
    (hnd : ∀ l ∈ ls.dropLast, lineDone l = false) :
    (generateCompletionStream reads).emitted = ls.filterMap lineChunk ∧
    (ls.filterMap lineChunk).length = ls.length :=
  ⟨gcs_emitted_lines reads ls hdec hnoLF hnd, filterMap_lineChunk_length ls hrec⟩

/-- C3: a stream containing a line that is not valid JSON among
otherwise-valid record lines yields every valid record chunk in order,
skips only the invalid line, and raises no error: the model of the loop is
a total function and a parse failure merely maps the line to no sink
call. -/
theorem C3_malformed_line_tolerance (reads pre post : List (List Nat)) (bad : List Nat)
    (hdec : (utf8Feed Utf8State.init reads.flatten).2 =
      ((pre ++ [bad] ++ post).map (fun l => l ++ [10])).flatten)
    (hnoLF : ∀ l ∈ pre ++ [bad] ++ post, splitFirstLF l = none)
    (hbadNE : trimJS bad ≠ [])
    (hbadParse : jsonParse (trimJS bad) = none)
    (hrec : ∀ l ∈ pre ++ post, (lineChunk l).isSome)
    (hnd : ∀ l ∈ (pre ++ [bad] ++ post).dropLast, lineDone l = false) :
    (generateCompletionStream reads).emitted = (pre ++ post).filterMap lineChunk ∧
    ((pre ++ post).filterMap lineChunk).length = pre.length + post.length ∧
    lineChunk bad = none := by
  have hbadskip : lineChunk bad = none := by
    rw [lineChunk_none_iff]
    unfold handleLine
    rw [if_neg hbadNE, hbadParse]
  have hcore := gcs_emitted_lines reads (pre ++ [bad] ++ post) hdec hnoLF hnd
  refine ⟨?_, ?_, hbadskip⟩
  · rw [hcore]
    simp [List.filterMap_append, List.filterMap_cons, hbadskip]
  · rw [filterMap_lineChunk_length (pre ++ post) hrec]
    simp

/-- C4: feeding the same byte-stream content through two different
read-size partitions produces identical decode outcomes, sink call
sequences included. -/
theorem C4_split_boundary_idempotence (reads1 reads2 : List (List Nat))
    (h : reads1.flatten = reads2.flatten) :
    generateCompletionStream reads1 = generateCompletionStream reads2 := by
  rw [generateCompletionStream_eq, generateCompletionStream_eq, h]

/-- C6: a stream that ends without any record having done equal true makes
the loop exit normally after the last complete valid line chunk: the sink
calls are exactly the line chunks, none of them has a truthy done field
(no synthetic terminal chunk), and the reader is released. -/
theorem C6_eof_without_terminal_marker (reads ls : List (List Nat))
    (hdec : (utf8Feed Utf8State.init reads.flatten).2 =
      (ls.map (fun l => l ++ [10])).flatten)
    (hnoLF : ∀ l ∈ ls, splitFirstLF l = none)
    (hnd : ∀ l ∈ ls, lineDone l = false) :
    (generateCompletionStream reads).emitted = ls.filterMap lineChunk ∧
    (∀ ch ∈ (generateCompletionStream reads).emitted, truthyOpt ch.done = false) ∧
    (generateCompletionStream reads).readerReleased = true := by
  have hm := gcs_emitted_lines reads ls hdec hnoLF
    (fun l hl => hnd l (List.dropLast_subset _ hl))
  refine ⟨hm, ?_, ?_⟩
  · intro ch hch
    rw [hm] at hch
    obtain ⟨l, hl, hcl⟩ := List.mem_filterMap.mp hch
    exact lineDone_false_chunk l ch (hnd l hl) hcl
  · rw [generateCompletionStream_eq]

/-- C9: when the stream ends while the decode buffer holds a complete,
valid JSON record not followed by a newline, that record is never parsed
into a sink call: the emissions are exactly those of the newline-terminated
lines, independent of the trailing record. -/
theorem C9_final_record_without_newline_dropped (reads ls : List (List Nat))
    (tail : List Nat) (ch : EmittedChunk)
    (hdec : (utf8Feed Utf8State.init reads.flatten).2 =
      (ls.map (fun l => l ++ [10])).flatten ++ tail)
    (hnoLF : ∀ l ∈ ls, splitFirstLF l = none)
    (htail : splitFirstLF tail = none)
    (htailRec : lineChunk tail = some ch)
    (hnd : ∀ l ∈ ls.dropLast, lineDone l = false) :
    (generateCompletionStream reads).emitted = ls.filterMap lineChunk :=
  gcs_emitted_lines_tail reads ls tail hdec hnoLF htail hnd

/-- C2: once the loop has invoked the sink with a chunk whose done field is
truthy, it never invokes the sink again: every chunk before the last has a
non-truthy done field, the reader is released, and once a truthy done
chunk has been emitted, appending further reads to the stream changes
nothing, the remaining data being left unconsumed. -/
theorem C2_terminal_short_circuit (reads : List (List Nat)) :
    (∀ ch ∈ (generateCompletionStream reads).emitted.dropLast, truthyOpt ch.done = false) ∧
    (generateCompletionStream reads).readerReleased = true ∧
    (∀ extra : List (List Nat),
      (∃ ch ∈ (generateCompletionStream reads).emitted, truthyOpt ch.done = true) →
      generateCompletionStream (reads ++ extra) = generateCompletionStream reads) := by
  refine ⟨?_, ?_, ?_⟩
  · intro ch hch
    rw [generateCompletionStream_eq] at hch
    have inv := processBuffer_done_inv (utf8Feed Utf8State.init reads.flatten).2
    cases hd : (processBuffer (utf8Feed Utf8State.init reads.flatten).2).2.2 with
    | false =>
      exact inv.1 hd ch (List.dropLast_subset _ hch)
    | true =>
      obtain ⟨es0, chl, heq, _, hall⟩ := inv.2 hd
      have hch2 : ch ∈ (processBuffer (utf8Feed Utf8State.init reads.flatten).2).1.dropLast :=
        hch
      rw [heq, List.dropLast_concat] at hch2
      exact hall ch hch2
  · rw [generateCompletionStream_eq]
  · intro extra hex
    rw [generateCompletionStream_eq] at hex
    rcases hp : processBuffer (utf8Feed Utf8State.init reads.flatten).2 with ⟨es, b, d⟩
    rw [hp] at hex
    obtain ⟨ch, hch, hcht⟩ := hex
    have inv := processBuffer_done_inv (utf8Feed Utf8State.init reads.flatten).2
    rw [hp] at inv
    have hdt : d = true := by
      cases hd : d with
      | true => rfl
      | false =>
        have hfalse : truthyOpt ch.done = false := inv.1 hd ch hch
        rw [hfalse] at hcht
        exact absurd hcht (by simp)
    subst hdt
    rw [generateCompletionStream_eq, generateCompletionStream_eq]
    have hdecomp : (utf8Feed Utf8State.init (reads ++ extra).flatten).2 =
        (utf8Feed Utf8State.init reads.flatten).2 ++
          (utf8Feed (utf8Feed Utf8State.init reads.flatten).1 extra.flatten).2 := by
      rw [List.flatten_append, utf8Feed_append]
    rw [hdecomp, processBuffer_append_done _ _ es b hp, hp]

/-- C7: a text fragment containing a multi-byte UTF-8 character whose
encoded bytes are split across two successive reads is reassembled
correctly: for any two-read split of the encoding of a record line, the
sink receives exactly the chunk of that line, with its text intact. -/
theorem C7_multibyte_split_reassembled (line b1 b2 : List Nat) (ch : EmittedChunk)
    (hvalid : ∀ c ∈ line, ValidScalar c)
    (hsplit : b1 ++ b2 = utf8EncodeAll (line ++ [10]))
    (hnoLF : splitFirstLF line = none)
    (hch : lineChunk line = some ch)
    (hmb : ∃ c ∈ line, 0x80 ≤ c) :
    (generateCompletionStream [b1, b2]).emitted = [ch] := by
  have hvalid10 : ∀ c ∈ line ++ [10], ValidScalar c := by
    intro c hc
    rcases List.mem_append.mp hc with h | h
    · exact hvalid c h
    · rw [List.mem_singleton.mp h]
      exact ⟨by omega, by omega⟩
  have hflat : ([b1, b2] : List (List Nat)).flatten = b1 ++ b2 := by simp
  rw [generateCompletionStream_eq]
  rw [hflat, hsplit, utf8Feed_encodeAll (line ++ [10]) hvalid10]
  show (processBuffer (line ++ [10])).1 = [ch]
  have hs : splitFirstLF (line ++ 10 :: []) = some (line, []) :=
    splitFirstLF_none_append line [] hnoLF
  cases hd : truthyOpt ch.done with
  | true =>
    rw [processBuffer_split_emit_done _ line [] ch hs ((lineChunk_emit_iff _ _).mp hch) hd]
  | false =>
    rw [processBuffer_split_emit _ line [] ch hs ((lineChunk_emit_iff _ _).mp hch) hd]
    rw [processBuffer_split_none [] rfl]

/-- C5 counterexample: the line consisting of the object with single
member a : 1 is valid JSON but has neither a response nor a done field,
yet the decode loop does invoke the sink for it, with both fields of the
chunk undefined, refuting the claim that such a line is dropped with no
sink call. -/
theorem C5_counterexample :
    (generateCompletionStream
        [utf8EncodeAll (codes ("\x7b\"a\":1\x7d") ++ [10])]).emitted =
      [⟨none, none⟩] ∧
    ([(⟨none, none⟩ : EmittedChunk)] : List EmittedChunk) ≠ [] := by
  constructor
  · have h := gcs_emitted_lines [utf8EncodeAll (codes ("\x7b\"a\":1\x7d") ++ [10])]
      [codes ("\x7b\"a\":1\x7d")] (by decide) (by decide) (by decide)
    rw [h]
    rfl
  · intro h
    exact absurd h (by simp)

/-- C5 amended: a line that parses as valid JSON but is missing the
expected record fields is not treated as malformed; the sink is invoked
for it once, with undefined text and done fields, and since an undefined
done field is falsy the loop continues with subsequent lines.  Only lines
that fail JSON.parse, or whose parsed value is null so that property
access throws inside the same try block, are logged and dropped. -/
theorem C5_missing_fields_still_emits (line : List Nat) (j : Json)
    (hnoLF : splitFirstLF line = none)
    (hne : trimJS line ≠ [])
    (hparse : jsonParse (trimJS line) = some j)
    (hnn : j ≠ Json.null)
    (hresp : j.getMember respKey = none)
    (hdone : j.getMember doneKey = none) :
    lineChunk line = some ⟨none, none⟩ ∧
    ∀ rest : List Nat, processBuffer (line ++ 10 :: rest) =
      ((⟨none, none⟩ : EmittedChunk) :: (processBuffer rest).1, (processBuffer rest).2) := by
  have hhl : handleLine line = LineResult.emit ⟨none, none⟩ := by
    unfold handleLine
    rw [if_neg hne, hparse]
    cases j with
    | null => exact absurd rfl hnn
    | bool b => simp [hresp, hdone]
    | num raw => simp [hresp, hdone]
    | str s => simp [hresp, hdone]
    | arr elems => simp [hresp, hdone]
    | obj fields => simp [hresp, hdone]
  constructor
  · rw [lineChunk_emit_iff]
    exact hhl
  · intro rest
    have hs : splitFirstLF (line ++ 10 :: rest) = some (line, rest) :=
      splitFirstLF_none_append line rest hnoLF
    exact processBuffer_split_emit _ line rest ⟨none, none⟩ hs hhl rfl

/-- C8: a rejected fetch, a non-success HTTP status, and a response body
that is not JSON with an array-valued models field all make listModels
return an empty models list without throwing, indistinguishable from a
reachable server with no models installed. -/
theorem C8_listModels_failure_conflation :
    listModelsModels FetchOutcome.reject = [] ∧
    (∀ body : Option Json, listModelsModels (FetchOutcome.response false body) = []) ∧
    listModelsModels (FetchOutcome.response true none) = [] ∧
    (∀ data : Json, (∀ ms : List Json, data.getMember modelsKey ≠ some (Json.arr ms)) →
      listModelsModels (FetchOutcome.response true (some data)) = []) ∧
    listModelsModels
      (FetchOutcome.response true (some (Json.obj [(modelsKey, Json.arr [])]))) = [] := by
  refine ⟨rfl, fun body => rfl, rfl, ?_, rfl⟩
  intro data h
  unfold listModelsModels
  cases htr : data.truthy with
  | false => simp
  | true =>
    show (if data.truthy = false then []
      else
        match data.getMember modelsKey with
        | some (Json.arr ms) => ms
        | _ => []) = []
    rw [htr, if_neg (by simp)]
    cases hm : data.getMember modelsKey with
    | none => rfl
    | some j =>
      cases j with
      | null => rfl
      | bool b => rfl
      | num raw => rfl
      | str s => rfl
      | arr ms => exact absurd hm (h ms)
      | obj fields => rfl

/-- C10: testConnection never throws, its model being a total function,
and returns true exactly when listModels yields a nonempty models list; in
particular it returns false both for an unreachable server and for a
reachable server reporting zero installed models, conflating the two. -/
theorem C10_testConnection_nonempty_iff (o : FetchOutcome) :
    (testConnection o = true ↔ listModelsModels o ≠ []) ∧
    testConnection FetchOutcome.reject = false ∧
    testConnection
      (FetchOutcome.response true (some (Json.obj [(modelsKey, Json.arr [])]))) = false := by
  refine ⟨?_, rfl, rfl⟩
  unfold testConnection
  rw [decide_eq_true_iff]
  exact ⟨fun h => List.ne_nil_of_length_pos h, fun h => List.length_pos.mpr h⟩

/-!
Section 9: concrete witness inputs.
-/

/-- A non-terminal record line with text a. -/
def wLineA : List Nat := codes ("\x7b\"response\":\"a\",\"done\":false\x7d")

/-- A terminal record line with text b. -/
def wLineB : List Nat := codes ("\x7b\"response\":\"b\",\"done\":true\x7d")

/-- A non-terminal record line with text c. -/
def wLineC : List Nat := codes ("\x7b\"response\":\"c\",\"done\":false\x7d")

/-- A non-terminal record line whose text is a two-byte character. -/
def wLineE : List Nat := codes ("\x7b\"response\":\"é\",\"done\":false\x7d")

/-- A line that is not valid JSON. -/
def wBadLine : List Nat := codes ("oops not json")

/-- A valid JSON line missing both expected record fields. -/
def wObjLine : List Nat := codes ("\x7b\"a\":1\x7d")

/-- The sink argument of the terminal record line. -/
def wChunkB : EmittedChunk :=
  ⟨some (Json.str (codes ("b"))), some (Json.bool true)⟩

theorem C1_witness :
    (generateCompletionStream
        [utf8EncodeAll ((wLineA ++ [10]) ++ (wLineB ++ [10]))]).emitted =
      [wLineA, wLineB].filterMap lineChunk ∧
    ([wLineA, wLineB].filterMap lineChunk).length = [wLineA, wLineB].length :=
  C1_sink_once_per_record_in_order
    [utf8EncodeAll ((wLineA ++ [10]) ++ (wLineB ++ [10]))] [wLineA, wLineB]
    (by decide) (by decide) (by decide) (by decide)

theorem C2_witness :
    generateCompletionStream
        ([utf8EncodeAll (wLineB ++ [10])] ++ [utf8EncodeAll (wLineC ++ [10])]) =
      generateCompletionStream [utf8EncodeAll (wLineB ++ [10])] :=
  (C2_terminal_short_circuit [utf8EncodeAll (wLineB ++ [10])]).2.2
    [utf8EncodeAll (wLineC ++ [10])]
    ⟨wChunkB,
      by
        have h := gcs_emitted_lines [utf8EncodeAll (wLineB ++ [10])] [wLineB]
          (by decide) (by decide) (by decide)
        rw [h]
        exact List.mem_singleton_self _,
      rfl⟩

theorem C3_witness :
    (generateCompletionStream
        [utf8EncodeAll ((wLineA ++ [10]) ++ ((wBadLine ++ [10]) ++ (wLineC ++ [10])))]).emitted =
      ([wLineA] ++ [wLineC]).filterMap lineChunk ∧
    (([wLineA] ++ [wLineC]).filterMap lineChunk).length = [wLineA].length + [wLineC].length ∧
    lineChunk wBadLine = none :=
  C3_malformed_line_tolerance
    [utf8EncodeAll ((wLineA ++ [10]) ++ ((wBadLine ++ [10]) ++ (wLineC ++ [10])))]
    [wLineA] [wLineC] wBadLine
    (by decide) (by decide) (by decide) rfl (by decide) (by decide)

theorem C4_witness :
    generateCompletionStream [utf8EncodeAll (wLineA ++ [10])] =
      generateCompletionStream [(utf8EncodeAll (wLineA ++ [10])).take 7,
        (utf8EncodeAll (wLineA ++ [10])).drop 7] :=
  C4_split_boundary_idempotence _ _ (by simp)

theorem C5_amended_witness :
    lineChunk wObjLine = some ⟨none, none⟩ ∧
    processBuffer (wObjLine ++ 10 :: (wLineA ++ [10])) =
      ((⟨none, none⟩ : EmittedChunk) :: (processBuffer (wLineA ++ [10])).1,
        (processBuffer (wLineA ++ [10])).2) :=
  ⟨(C5_missing_fields_still_emits wObjLine (Json.obj [(codes ("a"), Json.num [49])])
      (by decide) (by decide) rfl (fun h => Json.noConfusion h) rfl rfl).1,
    (C5_missing_fields_still_emits wObjLine (Json.obj [(codes ("a"), Json.num [49])])
      (by decide) (by decide) rfl (fun h => Json.noConfusion h) rfl rfl).2 (wLineA ++ [10])⟩

theorem C6_witness :
    (generateCompletionStream
        [utf8EncodeAll ((wLineA ++ [10]) ++ (wLineC ++ [10]))]).emitted =
      [wLineA, wLineC].filterMap lineChunk ∧
    (generateCompletionStream
        [utf8EncodeAll ((wLineA ++ [10]) ++ (wLineC ++ [10]))]).readerReleased = true :=
  ⟨(C6_eof_without_terminal_marker
      [utf8EncodeAll ((wLineA ++ [10]) ++ (wLineC ++ [10]))] [wLineA, wLineC]
      (by decide) (by decide) (by decide)).1,
    (C6_eof_without_terminal_marker
      [utf8EncodeAll ((wLineA ++ [10]) ++ (wLineC ++ [10]))] [wLineA, wLineC]
      (by decide) (by decide) (by decide)).2.2⟩

theorem C7_witness :
    (generateCompletionStream [(utf8EncodeAll (wLineE ++ [10])).take 14,
        (utf8EncodeAll (wLineE ++ [10])).drop 14]).emitted =
      [⟨some (Json.str (codes ("é"))), some (Json.bool false)⟩] :=
  C7_multibyte_split_reassembled wLineE _ _ _
    (by decide) (List.take_append_drop 14 _) (by decide) rfl
    ⟨0xE9, by decide, by decide⟩

theorem C9_witness :
    (generateCompletionStream [utf8EncodeAll ((wLineA ++ [10]) ++ wLineB)]).emitted =
      [wLineA].filterMap lineChunk :=
  C9_final_record_without_newline_dropped
    [utf8EncodeAll ((wLineA ++ [10]) ++ wLineB)] [wLineA] wLineB wChunkB
    (by decide) (by decide) (by decide) rfl (by decide)

theorem C8_witness :
    listModelsModels (FetchOutcome.response true (some (Json.str (codes ("x"))))) = [] :=
  C8_listModels_failure_conflation.2.2.2.1 (Json.str (codes ("x")))
    (fun _ h => Option.noConfusion h)

theorem C10_witness : testConnection FetchOutcome.reject = false :=
  (C10_testConnection_nonempty_iff FetchOutcome.reject).2.1
